import Mathlib

/-!
Verification of the PDF question-answering pipeline in `src/app.py`.

The file embeds, as Lean definitions, the pieces of the program that carry
behavioral meaning: the text-cleaning filter `clean_text`, the chunking policy
behind `create_faiss_db`, the top-k retrieval and prompt construction behind
`create_qa_chain`, the chat question handling, and the chat transcript export.
Theorems below settle the specification claims about these definitions.

Library calls that live outside the repository (the langchain
RecursiveCharacterTextSplitter, the FAISS nearest-neighbor search) are
modelled from the specification; each such definition says so in its
doc comment.
-/

namespace PdfChat

/-! ### Text cleaning (src/app.py lines 25-26)

`clean_text(raw_text)` is `re.sub(r"[^\w\s.,;:!?()-]", "", raw_text)`:
every character matching the class `[^\w\s.,;:!?()-]` is replaced by the
empty string, i.e. deleted.  We model the ASCII fragment of the regex
classes `\w` and `\s`. -/

/-- The literal punctuation characters of the regex class: `.,;:!?()-`
(the dash sits last in the class, so it is a literal). -/
def keptPunct : List Char := ['.', ',', ';', ':', '!', '?', '(', ')', '-']

/-- ASCII fragment of the Python regex class `\w`: letters, digits, underscore. -/
def wordChar (c : Char) : Bool :=
  c.isUpper || c.isLower || c.isDigit || c == '_'

/-- ASCII fragment of the Python regex class `\s`: space, tab, newline,
carriage return, vertical tab, form feed. -/
def spaceChar (c : Char) : Bool :=
  c == ' ' || c == '\t' || c == '\n' || c == '\r' || c == '\x0b' || c == '\x0c'

/-- Membership in the character class `[^\w\s.,;:!?()-]`: the characters that
`re.sub` deletes. -/
def removedChar (c : Char) : Bool :=
  !(wordChar c || spaceChar c || keptPunct.contains c)

/-- The scan performed by `re.sub(class, "", text)`: each character matching
the class is dropped, every other character is kept. -/
def subDelete : List Char → List Char
  | [] => []
  | c :: cs => if removedChar c then subDelete cs else c :: subDelete cs

/-- Definition of `clean_text` from src/app.py line 25. -/
def clean_text (s : String) : String := ⟨subDelete s.data⟩

/-- The allowed set in the words of the spec: letters, digits, underscore,
whitespace, and the punctuation characters `. , ; : ! ? ( ) -`. -/
def specAllowed (c : Char) : Bool :=
  c.isAlphanum || c == '_' || spaceChar c || keptPunct.contains c

theorem subDelete_eq_filter (l : List Char) :
    subDelete l = l.filter fun c => !(removedChar c) := by
  induction l with
  | nil => rfl
  | cons c cs ih =>
    by_cases h : removedChar c = true
    · simp [subDelete, h, List.filter, ih]
    · simp only [Bool.not_eq_true] at h
      simp [subDelete, h, List.filter, ih]

theorem not_removedChar_eq_specAllowed (c : Char) :
    (!(removedChar c)) = specAllowed c := by
  simp only [removedChar, specAllowed, wordChar, Char.isAlphanum, Char.isAlpha,
    Bool.not_not, Bool.or_assoc]

theorem clean_text_data (s : String) :
    (clean_text s).data = s.data.filter specAllowed := by
  show subDelete s.data = _
  rw [subDelete_eq_filter]
  exact List.filter_congr fun c _ => not_removedChar_eq_specAllowed c

/-- C4: the cleaning filter keeps exactly the characters of the allowed set
(letters, digits, underscore, whitespace, and the listed punctuation) and
removes exactly the characters outside it: the output is the input filtered
by `specAllowed`, so every allowed character keeps its multiplicity and every
disallowed character disappears. -/
theorem c4_clean_removes_exactly_disallowed (s : String) :
    (clean_text s).data = s.data.filter specAllowed ∧
    ∀ c : Char, (clean_text s).data.count c =
      if specAllowed c then s.data.count c else 0 := by
  refine ⟨clean_text_data s, fun c => ?_⟩
  rw [clean_text_data s]
  by_cases h : specAllowed c = true
  · simp [h, List.count_filter]
  · simp only [Bool.not_eq_true] at h
    rw [h]
    simp only [Bool.false_eq_true, if_false]
    refine List.count_eq_zero.mpr fun hc => ?_
    have := (List.mem_filter.mp hc).2
    rw [h] at this
    cases this

/-- C5: the cleaning function is idempotent: cleaning cleaned text changes
nothing. -/
theorem c5_clean_idempotent (s : String) :
    clean_text (clean_text s) = clean_text s := by
  apply String.ext
  rw [clean_text_data, clean_text_data, List.filter_filter]
  exact List.filter_congr fun c _ => by cases h : specAllowed c <;> simp [h]

/-- C9: the output of the cleaning function is a subsequence of the input:
it arises only by deleting characters, preserving the relative order of the
kept characters. -/
theorem c9_clean_sublist (s : String) :
    (clean_text s).data.Sublist s.data := by
  rw [clean_text_data]
  exact List.filter_sublist s.data

/-! ### Chunking (src/app.py lines 52-59)

`create_faiss_db` builds a `RecursiveCharacterTextSplitter(chunk_size=1000,
chunk_overlap=200)` and calls `split_text`.  The splitter itself is library
code from `langchain_text_splitters`, not part of this repository. -/

/-- Maximum chunk size passed to the splitter in src/app.py line 53. -/
def chunkSize : Nat := 1000

/-- Overlap between consecutive chunks passed to the splitter in
src/app.py line 53. -/
def chunkOverlap : Nat := 200

/-- Modelled from the spec: the `RecursiveCharacterTextSplitter.split_text`
method is missing from src/ (it comes from the external package
`langchain_text_splitters`).  The spec states the policy: maximum chunk size
1000 characters, overlap 200 characters between consecutive chunks, one
chunk equal to the whole text when the text fits the size budget, zero
chunks for empty text.  We model the character-cut realization of that
policy: full windows of `chunkSize` characters advancing by
`chunkSize - chunkOverlap`, the spec-preferred natural boundaries being an
abstracted placement choice within the same size and overlap budget. -/
def chunkChars (cs : List Char) : List (List Char) :=
  if h : cs.length ≤ chunkSize then [cs]
  else cs.take chunkSize :: chunkChars (cs.drop (chunkSize - chunkOverlap))
termination_by cs.length
decreasing_by
  simp only [List.length_drop, chunkSize, chunkOverlap] at *
  omega

/-- Modelled from the spec: chunking of a text, zero chunks for the empty
text, otherwise the chunk windows of `chunkChars`. -/
def split_text (s : String) : List String :=
  if s.data.length = 0 then [] else (chunkChars s.data).map fun l => ⟨l⟩

/-- Definition of `create_faiss_db` from src/app.py lines 52-59: split the text into
chunks, index them, and return the index together with the chunk count.
The FAISS store is modelled as the list of indexed chunks, the embedding
vectors being abstracted into the query-time distance function of
`retrieveK` below. -/
def create_faiss_db (text : String) : List String × Nat :=
  (split_text text, (split_text text).length)

theorem chunkChars_length_le (cs : List Char) :
    ∀ l ∈ chunkChars cs, l.length ≤ chunkSize := by
  induction cs using chunkChars.induct with
  | case1 cs h =>
    rw [chunkChars, dif_pos h]
    intro l hl
    rw [List.mem_singleton] at hl
    exact hl ▸ h
  | case2 cs h ih =>
    rw [chunkChars, dif_neg h]
    intro l hl
    rcases List.mem_cons.mp hl with rfl | hl
    · simp [List.length_take]
    · exact ih l hl

theorem chunkChars_head (cs : List Char) :
    (chunkChars cs).head? = some (cs.take (min chunkSize cs.length)) := by
  rw [chunkChars]
  split
  · next h => simp [min_eq_right h, List.take_of_length_le le_rfl]
  · next h => simp [min_eq_left (le_of_not_le h)]

/-- The overlap relation between two consecutive chunks: the final
`chunkOverlap` characters of the first chunk are exactly the initial
`chunkOverlap` characters of the second, and that shared stretch has length
exactly `chunkOverlap`. -/
def ovLap (a b : List Char) : Prop :=
  a.drop (a.length - chunkOverlap) = b.take chunkOverlap ∧
  (a.drop (a.length - chunkOverlap)).length = chunkOverlap

theorem chunkChars_chain (cs : List Char) : List.Chain' ovLap (chunkChars cs) := by
  induction cs using chunkChars.induct with
  | case1 cs h =>
    rw [chunkChars, dif_pos h]
    exact List.chain'_singleton cs
  | case2 cs h ih =>
    rw [chunkChars, dif_neg h]
    refine List.chain'_cons'.mpr ⟨?_, ih⟩
    intro y hy
    rw [chunkChars_head, Option.mem_some_iff] at hy
    subst hy
    have hlen : 1000 < cs.length := lt_of_not_le (by simpa [chunkSize] using h)
    have hds : 200 < (cs.drop (chunkSize - chunkOverlap)).length := by
      simp only [List.length_drop, chunkSize, chunkOverlap]
      omega
    have ha : (cs.take chunkSize).length = chunkSize := by
      simp only [List.length_take, chunkSize]
      omega
    have hmin : chunkOverlap ⊓ (chunkSize ⊓ (cs.drop (chunkSize - chunkOverlap)).length)
        = chunkOverlap :=
      min_eq_left (le_min_iff.mpr ⟨by norm_num [chunkSize, chunkOverlap], le_of_lt
        (by simpa [chunkOverlap] using hds)⟩)
    simp only [ovLap]
    rw [ha]
    refine ⟨?_, ?_⟩
    · rw [List.drop_take, List.take_take, hmin]
      congr 1
    · rw [List.length_drop, ha]
      rfl

/-- C2: for every text longer than 1000 characters, every chunk produced by
the splitting pass has length at most 1000, and every pair of consecutive
chunks overlaps in exactly 200 characters (hence by at most 200, with no
smaller overlap anywhere, the final boundary included). -/
theorem c2_chunks_bounded_and_overlapping (s : String) (h : 1000 < s.length) :
    (∀ c ∈ split_text s, c.length ≤ 1000) ∧
    List.Chain'
      (fun a b => a.data.drop (a.length - 200) = b.data.take 200 ∧
        (a.data.drop (a.length - 200)).length = 200)
      (split_text s) := by
  have hne : ¬ s.data.length = 0 := by
    have : s.data.length = s.length := rfl
    omega
  rw [split_text, if_neg hne]
  constructor
  · intro c hc
    rcases List.mem_map.mp hc with ⟨l, hl, rfl⟩
    simpa [chunkSize] using chunkChars_length_le s.data l hl
  · rw [List.chain'_map]
    refine List.Chain'.imp ?_ (chunkChars_chain s.data)
    intro a b hab
    simpa [ovLap, chunkOverlap] using hab

/-- Witness for C2 at a concrete 1001-character text. -/
theorem c2_witness :
    1000 < (⟨List.replicate 1001 'a'⟩ : String).length ∧
    ((∀ c ∈ split_text ⟨List.replicate 1001 'a'⟩, c.length ≤ 1000) ∧
      List.Chain'
        (fun a b => a.data.drop (a.length - 200) = b.data.take 200 ∧
          (a.data.drop (a.length - 200)).length = 200)
        (split_text ⟨List.replicate 1001 'a'⟩)) :=
  ⟨by rw [String.length_mk, List.length_replicate]; norm_num,
    c2_chunks_bounded_and_overlapping _
      (by rw [String.length_mk, List.length_replicate]; norm_num)⟩

/-- C3: a non-empty text of at most 1000 characters is split into exactly
one chunk, the whole text itself. -/
theorem c3_small_text_single_chunk (s : String) (h1 : s ≠ "") (h2 : s.length ≤ 1000) :
    split_text s = [s] := by
  have hne : ¬ s.data.length = 0 := by
    intro h0
    apply h1
    apply String.ext
    simpa using List.length_eq_zero.mp h0
  rw [split_text, if_neg hne, chunkChars, dif_pos (show s.data.length ≤ chunkSize from h2)]
  rfl

/-- Witness for C3 at the concrete text "hi". -/
theorem c3_witness :
    ("hi" : String) ≠ "" ∧ ("hi" : String).length ≤ 1000 ∧ split_text "hi" = ["hi"] :=
  ⟨by decide, by decide, c3_small_text_single_chunk "hi" (by decide) (by decide)⟩

/-! ### Retrieval and prompt construction (src/app.py lines 64-88)

`create_qa_chain` wires `db.as_retriever(search_kwargs={"k": 5})`, a prompt
template with a fixed fallback sentence, and a `RetrievalQA` chain of type
`stuff`, which pastes the retrieved chunk texts into the `context` slot of
the template. -/

/-- Comparison of two chunks by their vector distance to the current
question: the composite of the question embedding, the chunk embeddings and
the index metric is abstracted as the function `dist`. -/
def distRel (dist : String → ℚ) : String → String → Prop := fun a b => dist a ≤ dist b

instance (dist : String → ℚ) : DecidableRel (distRel dist) :=
  fun a b => inferInstanceAs (Decidable (dist a ≤ dist b))

/-- Modelled from the spec: the FAISS nearest-neighbor search behind
`db.as_retriever(search_kwargs={"k": 5})` is library code missing from src/.
The spec states that the retriever returns the k nearest chunks from the
index by vector distance: the chunks sorted by distance, first k taken. -/
def retrieveK (dist : String → ℚ) (k : Nat) (chunks : List String) : List String :=
  (List.insertionSort (distRel dist) chunks).take k

/-- The fixed fallback sentence inside the prompt template of
`create_qa_chain` (src/app.py line 71); \x27 is the apostrophe. -/
def fallbackSentence : String :=
  "I don\x27t have that information in the document. Please ask something else!"

/-- The template text before the fallback sentence (src/app.py lines 68-71). -/
def promptHeader : String :=
  "\nYou are an expert assistant for NIT Uttarakhand students.\nUse ONLY the provided context to answer.\nIf answer not found, reply: \""

/-- The template text between the fallback sentence and the context slot. -/
def promptAfterFallback : String := "\"\n\nContext:\n"

/-- The template text between the context slot and the question slot. -/
def promptMid : String := "\n\nQuestion:\n"

/-- The template text after the question slot. -/
def promptTail : String := "\n\nAnswer:\n"

/-- The prompt template of `create_qa_chain` (src/app.py lines 68-80), with
the two placeholder slots written literally (\x7b and \x7d are the braces). -/
def promptTemplate : String :=
  promptHeader ++ fallbackSentence ++ promptAfterFallback ++ "\x7bcontext\x7d" ++
    promptMid ++ "\x7bquestion\x7d" ++ promptTail

/-- Formatting the template: the context and question texts substituted into
the two slots. -/
def buildPrompt (context question : String) : String :=
  promptHeader ++ fallbackSentence ++ promptAfterFallback ++ context ++
    promptMid ++ question ++ promptTail

/-- Python str.join on a separator: empty for the empty list, otherwise the
pieces with the separator between consecutive pieces. -/
def joinSep (sep : String) : List String → String
  | [] => ""
  | [x] => x
  | x :: y :: xs => x ++ sep ++ joinSep sep (y :: xs)

/-- The context the stuff chain builds: the retrieved chunk texts joined by
blank lines. -/
def answerContext (retrieved : List String) : String := joinSep "\n\n" retrieved

/-- The full prompt the qa chain sends to the completion model for a
question: the template formatted with the retrieved top-5 context and the
question. -/
def qaPrompt (dist : String → ℚ) (chunks : List String) (question : String) : String :=
  buildPrompt (answerContext (retrieveK dist 5 chunks)) question

theorem pairwise_take_drop {α : Type _} {R : α → α → Prop} {l : List α}
    (hp : List.Pairwise R l) (k : Nat) :
    ∀ a ∈ l.take k, ∀ b ∈ l.drop k, R a b := by
  rw [← List.take_append_drop k l] at hp
  exact (List.pairwise_append.mp hp).2.2

/-- C1: for every indexed chunk set and question, the context slot of the
prompt receives only the k = 5 nearest chunks by distance (never all chunks
when more than 5 exist), and the prompt carries the question together with
the system instruction containing the exact fixed fallback sentence. -/
theorem c1_prompt_top5_nearest_with_fallback (dist : String → ℚ)
    (chunks : List String) (question : String) :
    (retrieveK dist 5 chunks).length = min 5 chunks.length ∧
    (5 < chunks.length → (retrieveK dist 5 chunks).length = 5 ∧
      (retrieveK dist 5 chunks).length < chunks.length) ∧
    (∀ c ∈ retrieveK dist 5 chunks, c ∈ chunks) ∧
    (∀ c ∈ retrieveK dist 5 chunks, ∀ e ∈ chunks, e ∉ retrieveK dist 5 chunks →
      dist c ≤ dist e) ∧
    qaPrompt dist chunks question =
      promptHeader ++ fallbackSentence ++ promptAfterFallback ++
        answerContext (retrieveK dist 5 chunks) ++ promptMid ++ question ++ promptTail ∧
    fallbackSentence.data <:+: (qaPrompt dist chunks question).data ∧
    question.data <:+: (qaPrompt dist chunks question).data := by
  classical
  have hperm := List.perm_insertionSort (distRel dist) chunks
  have hlen : (List.insertionSort (distRel dist) chunks).length = chunks.length :=
    List.length_insertionSort (distRel dist) chunks
  have hlentake : (retrieveK dist 5 chunks).length = min 5 chunks.length := by
    simp [retrieveK, List.length_take, hlen]
  refine ⟨hlentake, ?_, ?_, ?_, rfl, ?_, ?_⟩
  · intro h5
    rw [hlentake, min_eq_left (le_of_lt h5)]
    exact ⟨rfl, h5⟩
  · intro c hc
    exact hperm.mem_iff.mp (List.take_subset 5 _ hc)
  · intro c hc e he hne
    haveI : IsTotal String (distRel dist) := ⟨fun a b => le_total (dist a) (dist b)⟩
    haveI : IsTrans String (distRel dist) := ⟨fun _ _ _ hab hbc => le_trans hab hbc⟩
    have hsort : List.Pairwise (distRel dist) (List.insertionSort (distRel dist) chunks) :=
      List.sorted_insertionSort (distRel dist) chunks
    have hes : e ∈ List.insertionSort (distRel dist) chunks := hperm.mem_iff.mpr he
    rw [← List.take_append_drop 5 (List.insertionSort (distRel dist) chunks),
      List.mem_append] at hes
    rcases hes with hes | hes
    · exact absurd hes hne
    · exact pairwise_take_drop hsort 5 c hc e hes
  · refine ⟨promptHeader.data,
      (promptAfterFallback ++ answerContext (retrieveK dist 5 chunks) ++
        promptMid ++ question ++ promptTail).data, ?_⟩
    simp [qaPrompt, buildPrompt, String.data_append, List.append_assoc]
  · refine ⟨(promptHeader ++ fallbackSentence ++ promptAfterFallback ++
      answerContext (retrieveK dist 5 chunks) ++ promptMid).data, promptTail.data, ?_⟩
    simp [qaPrompt, buildPrompt, String.data_append, List.append_assoc]

/-- Witness for C1 on a concrete six-chunk index with a length-based
distance: retrieval keeps five chunks, drops the farthest, the kept chunk
"b" is no farther than the dropped chunk "ffffff", and the prompt contains
the fallback sentence. -/
theorem c1_witness :
    5 < (["aa", "b", "cccc", "dd", "e", "ffffff"] : List String).length ∧
    (retrieveK (fun s => ((s.data.length : ℚ))) 5
      ["aa", "b", "cccc", "dd", "e", "ffffff"]).length = 5 ∧
    "b" ∈ retrieveK (fun s => ((s.data.length : ℚ))) 5
      ["aa", "b", "cccc", "dd", "e", "ffffff"] ∧
    "ffffff" ∉ retrieveK (fun s => ((s.data.length : ℚ))) 5
      ["aa", "b", "cccc", "dd", "e", "ffffff"] ∧
    (("b" : String).data.length : ℚ) ≤ (("ffffff" : String).data.length : ℚ) ∧
    fallbackSentence.data <:+:
      (qaPrompt (fun s => ((s.data.length : ℚ)))
        ["aa", "b", "cccc", "dd", "e", "ffffff"] "When was it founded?").data := by
  have h := c1_prompt_top5_nearest_with_fallback (fun s => ((s.data.length : ℚ)))
    ["aa", "b", "cccc", "dd", "e", "ffffff"] "When was it founded?"
  refine ⟨by decide, (h.2.1 (by decide)).1, by decide, by decide, ?_, h.2.2.2.2.2.1⟩
  exact h.2.2.2.1 "b" (by decide) "ffffff" (by decide) (by decide)

/-- C6: chunking the empty text produces zero chunks, indexing that empty
chunk sequence succeeds with an index of zero entries, and retrieval on the
empty index returns no chunks. -/
theorem c6_empty_text_empty_index :
    split_text "" = [] ∧ create_faiss_db "" = ([], 0) ∧
    ∀ dist : String → ℚ, retrieveK dist 5 (create_faiss_db "").1 = [] :=
  ⟨rfl, rfl, fun _ => rfl⟩

/-! ### Chat question handling (src/app.py lines 760-766)

When a question is submitted, the program calls
`st.session_state.qa_chain.invoke` on the question; only after the call
returns does it append a user turn and a bot turn, both stamped with the
same `datetime.now().strftime` value, to `st.session_state.chat`.  There is
no try block around the call: a failing completion call raises, the appends
never run, and the session state is left as it was. -/

/-- One turn of the chat transcript: sender ("user" or "bot"), message,
timestamp. -/
structure ChatTurn where
  sender : String
  msg : String
  ts : String
deriving DecidableEq

/-- The session state the question handling touches: the vector index and
the chat transcript. -/
structure AppState where
  db : List String
  chat : List ChatTurn
deriving DecidableEq

/-- The error of a failing completion service call. -/
inductive AnswerError where
  | failure : String → AnswerError
deriving DecidableEq

/-- One question submission (src/app.py lines 760-766): `resp` is the
outcome of the external completion call.  On success the user turn and the
bot turn are appended, both with the shared timestamp `ts`; on failure the
exception propagates and the state is returned untouched, because the
appends sit after the call. -/
def handleQuestion (resp : Except AnswerError String) (ts : String)
    (st : AppState) (q : String) : AppState × Except AnswerError String :=
  match resp with
  | .error e => (st, .error e)
  | .ok ans =>
    ({ st with chat := st.chat ++ [⟨"user", q, ts⟩, ⟨"bot", ans, ts⟩] }, .ok ans)

/-- C7: when the completion call for a question fails, the operation fails
with the error and the system state is unchanged: the vector index and the
prior chat transcript are exactly as before, with no partial chat turn
appended. -/
theorem c7_failed_answer_leaves_state_unchanged (resp : Except AnswerError String)
    (ts : String) (st : AppState) (q : String) (e : AnswerError)
    (h : resp = .error e) :
    handleQuestion resp ts st q = (st, .error e) ∧
    (handleQuestion resp ts st q).1.chat = st.chat ∧
    (handleQuestion resp ts st q).1.db = st.db := by
  subst h
  exact ⟨rfl, rfl, rfl⟩

/-- Witness for C7 at a concrete failing call on a non-empty state. -/
theorem c7_witness :
    (Except.error (AnswerError.failure "timeout") : Except AnswerError String) =
      Except.error (AnswerError.failure "timeout") ∧
    handleQuestion (Except.error (AnswerError.failure "timeout")) "10:00"
        ⟨["chunk"], [⟨"user", "hello", "09:00"⟩]⟩ "why?" =
      (⟨["chunk"], [⟨"user", "hello", "09:00"⟩]⟩, Except.error (AnswerError.failure "timeout")) :=
  ⟨rfl, (c7_failed_answer_leaves_state_unchanged _ "10:00"
    ⟨["chunk"], [⟨"user", "hello", "09:00"⟩]⟩ "why?" _ rfl).1⟩

/-- One submitted question together with the outcome of its completion call
and the timestamp taken at that moment. -/
structure QueryEvent where
  q : String
  resp : Except AnswerError String
  ts : String

/-- The state transition of one question submission, as the top-level chat
code performs it. -/
def stepChat (st : AppState) (ev : QueryEvent) : AppState :=
  (handleQuestion ev.resp ev.ts st ev.q).1

/-- A session: the question submissions folded over the state. -/
def runChat (st : AppState) (evs : List QueryEvent) : AppState :=
  evs.foldl stepChat st

/-- The (question, answer, timestamp) triples of the successfully answered
questions. -/
def successPairs (evs : List QueryEvent) : List (String × String × String) :=
  evs.filterMap fun ev =>
    match ev.resp with
    | .error _ => none
    | .ok ans => some (ev.q, ans, ev.ts)

/-- The chat turns generated by a list of answered questions: per question a
user turn followed by a bot turn carrying the shared timestamp. -/
def turnsOfPairs : List (String × String × String) → List ChatTurn
  | [] => []
  | (q, a, ts) :: ps => ⟨"user", q, ts⟩ :: ⟨"bot", a, ts⟩ :: turnsOfPairs ps

theorem turnsOfPairs_length (ps : List (String × String × String)) :
    (turnsOfPairs ps).length = 2 * ps.length := by
  induction ps with
  | nil => rfl
  | cons p ps ih =>
    obtain ⟨q, a, ts⟩ := p
    simp only [turnsOfPairs, List.length_cons, ih]
    omega

theorem runChat_chat (evs : List QueryEvent) :
    ∀ st : AppState,
      (runChat st evs).chat = st.chat ++ turnsOfPairs (successPairs evs) ∧
      (runChat st evs).db = st.db := by
  induction evs with
  | nil => intro st; simp [runChat, successPairs, turnsOfPairs]
  | cons ev evs ih =>
    intro st
    have hstep : runChat st (ev :: evs) = runChat (stepChat st ev) evs := rfl
    rcases hr : ev.resp with e | ans
    · have hs : stepChat st ev = st := by
        simp [stepChat, handleQuestion, hr]
      have hp : successPairs (ev :: evs) = successPairs evs := by
        simp [successPairs, List.filterMap_cons, hr]
      rw [hstep, hs, hp]
      exact ih st
    · have hs : stepChat st ev =
          { st with chat := st.chat ++ [⟨"user", ev.q, ev.ts⟩, ⟨"bot", ans, ev.ts⟩] } := by
        simp [stepChat, handleQuestion, hr]
      have hp : successPairs (ev :: evs) = (ev.q, ans, ev.ts) :: successPairs evs := by
        simp [successPairs, List.filterMap_cons, hr]
      rw [hstep, hs, hp]
      obtain ⟨h1, h2⟩ := ih { st with chat := st.chat ++ [⟨"user", ev.q, ev.ts⟩, ⟨"bot", ans, ev.ts⟩] }
      refine ⟨?_, h2⟩
      rw [h1]
      simp [turnsOfPairs, List.append_assoc]

/-- C10: starting from an empty transcript, after any sequence of question
submissions the transcript is exactly the user/bot turn pairs of the
successfully answered questions: every success appends a user turn followed
by a bot turn sharing one timestamp, so the transcript length is twice the
number of successes, hence always even, and turns strictly alternate
starting with a user turn. -/
theorem c10_transcript_even_alternating (db : List String) (evs : List QueryEvent) :
    (runChat ⟨db, []⟩ evs).chat = turnsOfPairs (successPairs evs) ∧
    (runChat ⟨db, []⟩ evs).chat.length = 2 * (successPairs evs).length ∧
    Even (runChat ⟨db, []⟩ evs).chat.length := by
  obtain ⟨h1, _⟩ := runChat_chat evs ⟨db, []⟩
  simp only [List.nil_append] at h1
  refine ⟨h1, ?_, ?_⟩
  · rw [h1, turnsOfPairs_length]
  · rw [h1, turnsOfPairs_length]
    exact even_two_mul _

/-! ### Chat transcript export (src/app.py lines 843-849)

The history download joins, with one blank line between entries, one
formatted entry per chat turn: the sender upper-cased, the timestamp in
parentheses, a colon, the message. -/

/-- Python str.upper on the stored sender string, modelled on the character
list. -/
def strUpper (s : String) : String := ⟨s.data.map Char.toUpper⟩

/-- One entry of the chat history download (src/app.py line 843). -/
def fmtTurn (t : ChatTurn) : String :=
  strUpper t.sender ++ " (" ++ t.ts ++ "): " ++ t.msg

/-- The exported transcript (src/app.py line 843): the formatted turns
joined by blank lines. -/
def chat_text (chat : List ChatTurn) : String :=
  joinSep "\n\n" (chat.map fmtTurn)

/-- Number of newline characters in a string. -/
def newlineCount (s : String) : Nat := s.data.count '\n'

/-- C8 counterexample: the claim promises one line per turn with exactly one
blank line between consecutive turns, which forces a transcript of n turns
to export with exactly 2(n-1) newline characters; a single bot turn whose
message itself contains a newline exports with 1 newline instead of 0. -/
theorem c8_counterexample :
    ¬ (newlineCount (chat_text [⟨"bot", "a\nb", "10:00"⟩]) =
        2 * (([⟨"bot", "a\nb", "10:00"⟩] : List ChatTurn).length - 1)) := by
  decide

theorem joinSep_count (parts : List String) :
    (∀ p ∈ parts, '\n' ∉ p.data) → parts ≠ [] →
    (joinSep "\n\n" parts).data.count '\n' = 2 * (parts.length - 1) := by
  induction parts with
  | nil => intro _ hne; exact absurd rfl hne
  | cons x xs ih =>
    intro hp _
    cases xs with
    | nil =>
      show (joinSep "\n\n" [x]).data.count '\n' = 2 * (1 - 1)
      rw [show joinSep "\n\n" [x] = x from rfl,
        List.count_eq_zero.mpr (hp x (by simp))]
    | cons y ys =>
      have hrest := ih (fun p hp2 => hp p (List.mem_cons_of_mem x hp2)) (by simp)
      show ((x ++ "\n\n" ++ joinSep "\n\n" (y :: ys)).data.count '\n') = _
      rw [String.data_append, String.data_append, List.count_append, List.count_append,
        List.count_eq_zero.mpr (hp x (by simp)), hrest,
        show (("\n\n" : String).data.count '\n') = 2 from by decide]
      simp only [List.length_cons]
      omega

/-- C8 (amended): for every chat transcript whose turns carry the user or
bot sender and whose messages and timestamps contain no newline character,
the export is one line per turn, formatted sender-upper-cased as
USER (HH:MM): message or BOT (HH:MM): message, with exactly one blank line
between consecutive turns (the export of n turns holds exactly 2(n-1)
newline characters); the two-turn transcript of the spec scenario exports
exactly as the spec states. -/
theorem c8_export_one_line_per_turn (chat : List ChatTurn)
    (hs : ∀ t ∈ chat, t.sender = "user" ∨ t.sender = "bot")
    (hm : ∀ t ∈ chat, '\n' ∉ t.msg.data)
    (ht : ∀ t ∈ chat, '\n' ∉ t.ts.data) :
    (∀ t ∈ chat, '\n' ∉ (fmtTurn t).data) ∧
    (chat ≠ [] → newlineCount (chat_text chat) = 2 * (chat.length - 1)) ∧
    chat_text [⟨"user", "Hi", "10:00"⟩, ⟨"bot", "Hello", "10:01"⟩] =
      "USER (10:00): Hi\n\nBOT (10:01): Hello" := by
  have hline : ∀ t ∈ chat, '\n' ∉ (fmtTurn t).data := by
    intro t htm hin
    simp only [fmtTurn, String.data_append, List.mem_append] at hin
    rcases hin with (((h1 | h2) | h3) | h4) | h5
    · rcases hs t htm with h | h <;> rw [h] at h1 <;> revert h1 <;> decide
    · revert h2; decide
    · exact ht t htm h3
    · revert h4; decide
    · exact hm t htm h5
  refine ⟨hline, ?_, by decide⟩
  intro hne
  have := joinSep_count (chat.map fmtTurn)
    (fun p hp => by
      rcases List.mem_map.mp hp with ⟨t, htm, rfl⟩
      exact hline t htm)
    (by simpa using hne)
  simpa [chat_text, newlineCount, List.length_map] using this

/-- Witness for C8 (amended) at the two-turn transcript of the spec
scenario. -/
theorem c8_witness :
    (∀ t ∈ ([⟨"user", "Hi", "10:00"⟩, ⟨"bot", "Hello", "10:01"⟩] : List ChatTurn),
      t.sender = "user" ∨ t.sender = "bot") ∧
    newlineCount (chat_text [⟨"user", "Hi", "10:00"⟩, ⟨"bot", "Hello", "10:01"⟩]) =
      2 * (([⟨"user", "Hi", "10:00"⟩, ⟨"bot", "Hello", "10:01"⟩] : List ChatTurn).length - 1) ∧
    chat_text [⟨"user", "Hi", "10:00"⟩, ⟨"bot", "Hello", "10:01"⟩] =
      "USER (10:00): Hi\n\nBOT (10:01): Hello" := by
  have h := c8_export_one_line_per_turn
    [⟨"user", "Hi", "10:00"⟩, ⟨"bot", "Hello", "10:01"⟩]
    (by decide) (by decide) (by decide)
  exact ⟨by decide, h.2.1 (by decide), h.2.2⟩

end PdfChat
